import Mathlib

/-!
Verification development for the Obsidian Daily Notes Editor plugin core
(src/dailyNoteViewIndex.ts). Each host operation touched by the plugin is
shallowly embedded as an executable Lean function; machine state (DOM,
workspace, leaves, timers) is explicit. Definitions are translated from the
source module; host collaborators that the module only calls (the leaf class,
the workspace recorder, the note-creation library) are modelled from the
specification at their interface boundary, marked in their doc comments.
-/

namespace DNE

/-- Modelled from the spec: the guarded view's type identifier string
(declared in the view module that only the host loads; its concrete value is
opaque, only identity comparisons matter). -/
def DAILY_NOTE_VIEW_TYPE : String := "daily-note-editor-view"

/-- A DOM event target, given as the CSS class lists of the target itself and
of its ancestors up to the document root (target first). -/
structure EvtTarget where
  chain : List (List String)
deriving DecidableEq

/-- The closest-ancestor query of the handler, specialised to one class
selector: true iff the target or one of its ancestors carries the class. -/
def closestClass (t : EvtTarget) (cls : String) : Bool :=
  t.chain.any (fun cs => cs.contains cls)

/-- A keydown event as seen by the capture-phase Escape handler. -/
structure KeyEvt where
  key : String
  target : EvtTarget
deriving DecidableEq

/-- Ambient state read by the Escape handler: the active leaf view's type (if
any), the marker classes present somewhere in the document, the
alternate-navigation setting, and the focus tracker's flag. -/
structure EscCtx where
  activeViewType : Option String
  docClasses : List String
  useArrowUpOrDownToNavigate : Bool
  focusInsideDNE : Bool
deriving DecidableEq

/-- The selector list whose presence means a modal, prompt, suggestion, menu
or popover surface is open (the querySelector argument in escHandler). -/
def modalMarkerClasses : List String :=
  ["modal-container", "prompt", "suggestion-container", "menu", "popover"]

/-- Whether the escHandler modal check fires: some modal marker class is
present in the document. -/
def modalOpen (ctx : EscCtx) : Bool :=
  modalMarkerClasses.any (fun s => ctx.docClasses.contains s)

/-- escHandler translated from src/dailyNoteViewIndex.ts lines 139-165.
Returns true iff the keystroke is suppressed, that is, the branch invoking
stopPropagation, stopImmediatePropagation and preventDefault is reached. -/
def escHandler (ctx : EscCtx) (e : KeyEvt) : Bool :=
  if e.key ≠ "Escape" then false
  else
    let isInCodeMirror := closestClass e.target "cm-editor"
    if ctx.activeViewType ≠ some DAILY_NOTE_VIEW_TYPE then false
    else if modalOpen ctx then false
    else if isInCodeMirror && ctx.useArrowUpOrDownToNavigate then false
    else ctx.focusInsideDNE || closestClass e.target "dne-root"

/-- A leaf view as relevant to the getActiveViewOfType patch: whether it is an
instance of the guarded DailyNoteView class, and the opaque identity of its
embedded edit-mode object. -/
structure LeafViewObj where
  isDailyNoteView : Bool
  editMode : Nat
deriving DecidableEq

/-- Patched Workspace.getActiveViewOfType translated from lines 309-323.
Returned view objects are opaque ids; nextResult is what the original lookup
returned, tViewType the static VIEW_TYPE of the queried class, and
activeLeafView the active leaf's view if there is one. -/
def getActiveViewOfTypePatched (nextResult : Option Nat)
    (tViewType : Option String) (activeLeafView : Option LeafViewObj) :
    Option Nat :=
  match nextResult with
  | some r => some r
  | none =>
    if tViewType = some "markdown" then
      match activeLeafView with
      | some v => if v.isDailyNoteView then some v.editMode else none
      | none => none
    else none

/-- C1: an Escape keydown with the guarded view active, no modal surface open,
alternate navigation disabled, and the target inside the guarded region (per
the focus flag or the direct ancestry check) is suppressed; the same keystroke
with a modal surface open is not suppressed; with a non-guarded active view it
is not suppressed. -/
theorem esc_suppression_spec (ctx : EscCtx) (e : KeyEvt) :
    (e.key = "Escape" →
      ctx.activeViewType = some DAILY_NOTE_VIEW_TYPE →
      modalOpen ctx = false →
      ctx.useArrowUpOrDownToNavigate = false →
      (ctx.focusInsideDNE = true ∨ closestClass e.target "dne-root" = true) →
      escHandler ctx e = true)
    ∧ (modalOpen ctx = true → escHandler ctx e = false)
    ∧ (ctx.activeViewType ≠ some DAILY_NOTE_VIEW_TYPE →
      escHandler ctx e = false) := by
  refine ⟨?_, ?_, ?_⟩
  · intro hk hv hm hs hin
    simp only [escHandler, hk, hv, hm, hs, Bool.and_false, if_false]
    rcases hin with h | h <;> simp [h]
  · intro hm
    simp [escHandler, hm]
  · intro hv
    simp [escHandler, hv]

/-- Witness for C1: a concrete suppressed keystroke. -/
theorem esc_suppression_spec_witness :
    escHandler ⟨some DAILY_NOTE_VIEW_TYPE, [], false, true⟩ ⟨"Escape", ⟨[]⟩⟩ = true :=
  (esc_suppression_spec ⟨some DAILY_NOTE_VIEW_TYPE, [], false, true⟩
      ⟨"Escape", ⟨[]⟩⟩).1 rfl rfl (by decide) rfl (Or.inl rfl)

/-- C10: the patched getActiveViewOfType returns the original result unchanged
when it is non-null; when the original result is null, the queried type's
VIEW_TYPE is markdown, and the active leaf's view is an instance of the
guarded view, it returns that view's embedded edit-mode object; in every other
null case it returns the original null result. -/
theorem getActiveViewOfType_spec (nr : Option Nat) (tvt : Option String)
    (alv : Option LeafViewObj) :
    (∀ r, nr = some r → getActiveViewOfTypePatched nr tvt alv = some r)
    ∧ (nr = none → tvt = some "markdown" → ∀ v, alv = some v →
        v.isDailyNoteView = true →
        getActiveViewOfTypePatched nr tvt alv = some v.editMode)
    ∧ (nr = none → tvt ≠ some "markdown" →
        getActiveViewOfTypePatched nr tvt alv = none)
    ∧ (nr = none → ∀ v, alv = some v → v.isDailyNoteView = false →
        getActiveViewOfTypePatched nr tvt alv = none)
    ∧ (nr = none → alv = none → getActiveViewOfTypePatched nr tvt alv = none) := by
  refine ⟨?_, ?_, ?_, ?_, ?_⟩
  · intro r hr; subst hr; rfl
  · intro hn ht v hv hd; subst hn; subst hv
    simp [getActiveViewOfTypePatched, ht, hd]
  · intro hn ht; subst hn
    simp [getActiveViewOfTypePatched, ht]
  · intro hn v hv hd; subst hn; subst hv
    simp [getActiveViewOfTypePatched, hd]
  · intro hn ha; subst hn; subst ha
    simp [getActiveViewOfTypePatched]

/-- Witness for C10: concrete null fallback to the guarded view's edit mode. -/
theorem getActiveViewOfType_spec_witness :
    getActiveViewOfTypePatched none (some "markdown") (some ⟨true, 7⟩) = some 7 :=
  (getActiveViewOfType_spec none (some "markdown") (some ⟨true, 7⟩)).2.1
    rfl rfl ⟨true, 7⟩ rfl rfl

/-- A workspace leaf as relevant to the leaf patches: the view type it
currently hosts and its pin state. -/
structure Leaf where
  viewType : String
  pinned : Bool
deriving DecidableEq

/-- Modelled from the spec: the guarded-leaf predicate from the leaf-view
module (not present here) — "hosts the custom view type", re-evaluated per
call. -/
def isDailyNoteLeaf (l : Leaf) : Bool :=
  l.viewType == DAILY_NOTE_VIEW_TYPE

/-- Modelled from the spec: the host's original setPinned, which sets the pin
state idempotently. -/
def setPinnedOrig (l : Leaf) (pinned : Bool) : Leaf :=
  { l with pinned := pinned }

/-- Patched setPinned translated from lines 387-393: run the original, then if
the leaf is guarded and the requested state is unpinned, re-invoke the
(already patched) method with true. -/
def setPinnedPatched (l : Leaf) (pinned : Bool) : Leaf :=
  let l1 := setPinnedOrig l pinned
  if isDailyNoteLeaf l1 && !pinned then setPinnedPatched l1 true else l1
termination_by (if pinned then 0 else 1)
decreasing_by simp_all

theorem setPinnedPatched_true (l : Leaf) :
    setPinnedPatched l true = setPinnedOrig l true := by
  rw [setPinnedPatched]
  simp

theorem setPinnedPatched_viewType (l : Leaf) (p : Bool) :
    (setPinnedPatched l p).viewType = l.viewType := by
  cases p
  · rw [setPinnedPatched]
    split
    · rw [setPinnedPatched_true]
      simp [setPinnedOrig]
    · simp [setPinnedOrig]
  · rw [setPinnedPatched_true]
    simp [setPinnedOrig]

theorem setPinnedPatched_guarded_pinned (l : Leaf) (p : Bool)
    (h : isDailyNoteLeaf l = true) : (setPinnedPatched l p).pinned = true := by
  have hg : isDailyNoteLeaf (setPinnedOrig l p) = true := by
    simpa [isDailyNoteLeaf, setPinnedOrig] using h
  cases p
  · rw [setPinnedPatched]
    simp only [hg, Bool.not_false, Bool.and_true, if_true]
    rw [setPinnedPatched]
    simp [setPinnedOrig]
  · rw [setPinnedPatched]
    simp [setPinnedOrig]

/-- C2: after any nonempty sequence of setPinned calls with arbitrary boolean
arguments on a guarded leaf, the leaf's pinned state is true; in particular a
single call with false leaves the leaf pinned. -/
theorem setPinned_guarded_always_pinned (l : Leaf) (h : isDailyNoteLeaf l = true) :
    (∀ args : List Bool, args ≠ [] →
      (args.foldl setPinnedPatched l).pinned = true)
    ∧ (setPinnedPatched l false).pinned = true := by
  constructor
  · intro args hne
    induction args generalizing l with
    | nil => exact absurd rfl hne
    | cons a rest ih =>
      cases rest with
      | nil => exact setPinnedPatched_guarded_pinned l a h
      | cons b t =>
        have hg : isDailyNoteLeaf (setPinnedPatched l a) = true := by
          simpa [isDailyNoteLeaf, setPinnedPatched_viewType] using h
        exact ih (setPinnedPatched l a) hg (by simp)
  · exact setPinnedPatched_guarded_pinned l false h

/-- Witness for C2: a guarded leaf stays pinned through unpin attempts. -/
theorem setPinned_guarded_always_pinned_witness :
    (([false, true, false] : List Bool).foldl setPinnedPatched
      ⟨DAILY_NOTE_VIEW_TYPE, false⟩).pinned = true :=
  (setPinned_guarded_always_pinned ⟨DAILY_NOTE_VIEW_TYPE, false⟩ (by decide)).1
    [false, true, false] (by decide)

/-- State of the day-boundary monitor together with the observables the spec
talks about: the number of note-ensure attempts, the number of caught-and-
logged creation failures, and one refresh counter per live guarded view. -/
structure MonitorState where
  lastCheckedDay : String
  noteExists : Bool
  ensureAttempts : Nat
  errorLogs : Nat
  viewRefreshCounts : List Nat
deriving DecidableEq

/-- ensureTodaysDailyNoteExists translated from lines 277-289: look the note
up, create it when absent; any failure is caught and logged (modelled as an
errorLogs increment with normal return — the surrounding code never sees an
exception). createOk says whether the external create call succeeds on this
attempt. ensureAttempts counts invocations. -/
def ensureTodaysDailyNoteExists (createOk : Bool) (s : MonitorState) :
    MonitorState :=
  let s := { s with ensureAttempts := s.ensureAttempts + 1 }
  if s.noteExists then s
  else if createOk then { s with noteExists := true }
  else { s with errorLogs := s.errorLogs + 1 }

/-- checkDayChange translated from lines 449-469: compare the formatted date
against lastCheckedDay; on change, record the new day first, then ensure the
note exists, then invoke refreshForNewDay on every live guarded view. -/
def checkDayChange (today : String) (createOk : Bool) (s : MonitorState) :
    MonitorState :=
  if today ≠ s.lastCheckedDay then
    let s := { s with lastCheckedDay := today }
    let s := ensureTodaysDailyNoteExists createOk s
    { s with viewRefreshCounts := s.viewRefreshCounts.map (· + 1) }
  else s

/-- Run the monitor over a sequence of ticks, each with its observed date
string and external create outcome. -/
def runTicks (s : MonitorState) (ts : List (String × Bool)) : MonitorState :=
  ts.foldl (fun s t => checkDayChange t.1 t.2 s) s

theorem checkDayChange_same_day (d : String) (ok : Bool) (s : MonitorState)
    (h : d = s.lastCheckedDay) : checkDayChange d ok s = s := by
  simp [checkDayChange, h]

theorem runTicks_same_day (s : MonitorState) (d : String) (oks : List Bool)
    (h : d = s.lastCheckedDay) :
    runTicks s (oks.map (fun ok => (d, ok))) = s := by
  induction oks with
  | nil => rfl
  | cons a t ih =>
    simp only [List.map_cons, runTicks, List.foldl_cons]
    rw [checkDayChange_same_day d a s h]
    exact ih

/-- C5: over any tick sequence that crosses the date boundary exactly once
(some ticks observing the old day, then at least one tick observing the new
day), note-ensure is attempted exactly once and every live guarded view's
refresh hook is invoked exactly once, regardless of the number of ticks on
either side of the crossing. -/
theorem day_boundary_fires_once (s : MonitorState) (d1 d2 : String)
    (oks1 : List Bool) (ok : Bool) (oks2 : List Bool)
    (hlast : s.lastCheckedDay = d1) (hne : d1 ≠ d2) :
    let final := runTicks s
      (oks1.map (fun o => (d1, o)) ++ (d2, ok) :: oks2.map (fun o => (d2, o)))
    final.ensureAttempts = s.ensureAttempts + 1
    ∧ final.viewRefreshCounts = s.viewRefreshCounts.map (· + 1)
    ∧ final.lastCheckedDay = d2 := by
  intro final
  have h1 : runTicks s (oks1.map (fun o => (d1, o))) = s :=
    runTicks_same_day s d1 oks1 hlast.symm
  have hstep : checkDayChange d2 ok s =
      { ensureTodaysDailyNoteExists ok { s with lastCheckedDay := d2 } with
        viewRefreshCounts := s.viewRefreshCounts.map (· + 1) } := by
    rw [checkDayChange, if_pos (by rw [hlast]; exact fun hc => hne hc.symm)]
    simp [ensureTodaysDailyNoteExists]
    split <;> simp_all <;> split <;> simp_all
  have hfin : final = runTicks (checkDayChange d2 ok s)
      (oks2.map (fun o => (d2, o))) := by
    show runTicks s _ = _
    rw [runTicks, List.foldl_append]
    rw [show List.foldl (fun s t => checkDayChange t.1 t.2 s) s
        (oks1.map (fun o => (d1, o))) = s from h1]
    rfl
  have hlast2 : (checkDayChange d2 ok s).lastCheckedDay = d2 := by
    rw [hstep]
    simp [ensureTodaysDailyNoteExists]
    split <;> simp_all <;> split <;> simp_all
  rw [hfin, runTicks_same_day _ d2 oks2 hlast2.symm, hstep]
  refine ⟨?_, ?_, ?_⟩ <;>
    simp [ensureTodaysDailyNoteExists] <;> split <;> simp_all <;> split <;> simp_all

/-- Witness for C5: three ticks, one crossing. -/
theorem day_boundary_fires_once_witness :
    (runTicks ⟨"2024-01-01", false, 0, 0, [0, 0]⟩
      ([true].map (fun o => (("2024-01-01" : String), o)) ++
        (("2024-01-02" : String), false) ::
        [true].map (fun o => (("2024-01-02" : String), o)))).ensureAttempts = 0 + 1 :=
  (day_boundary_fires_once ⟨"2024-01-01", false, 0, 0, [0, 0]⟩ "2024-01-01"
    "2024-01-02" [true] false [true] rfl (by decide)).1

/-- Counterexample for C6: with no note and lastCheckedDay one day behind, a
boundary tick whose creation fails logs the error and keeps running, but the
next tick of the same day does not retry creation (ensureAttempts stays at 1,
the note still does not exist), because lastCheckedDay was recorded before the
creation attempt. -/
theorem failed_creation_not_retried_next_tick :
    (checkDayChange "2024-01-02" false ⟨"2024-01-01", false, 0, 0, []⟩).ensureAttempts = 1
    ∧ (checkDayChange "2024-01-02" false ⟨"2024-01-01", false, 0, 0, []⟩).errorLogs = 1
    ∧ (checkDayChange "2024-01-02" false ⟨"2024-01-01", false, 0, 0, []⟩).noteExists = false
    ∧ checkDayChange "2024-01-02" true
        (checkDayChange "2024-01-02" false ⟨"2024-01-01", false, 0, 0, []⟩)
      = checkDayChange "2024-01-02" false ⟨"2024-01-01", false, 0, 0, []⟩ := by
  decide

/-- C6 amended: a creation failure during a boundary tick is caught and
logged, the monitor keeps running and future boundary checks still fire (the
next day-change tick attempts creation again); but a tick later in the same
day does not retry, since lastCheckedDay is updated before the creation
attempt. -/
theorem failed_creation_retry_at_next_boundary (s : MonitorState)
    (d1 d2 : String) (ok ok2 : Bool)
    (hne1 : d1 ≠ s.lastCheckedDay) (hnote : s.noteExists = false)
    (hne2 : d2 ≠ d1) :
    let s1 := checkDayChange d1 false s
    s1.errorLogs = s.errorLogs + 1
    ∧ s1.ensureAttempts = s.ensureAttempts + 1
    ∧ s1.noteExists = false
    ∧ checkDayChange d1 ok s1 = s1
    ∧ (checkDayChange d2 ok2 s1).ensureAttempts = s1.ensureAttempts + 1 := by
  have hs1 : checkDayChange d1 false s =
      { s with lastCheckedDay := d1, ensureAttempts := s.ensureAttempts + 1,
               errorLogs := s.errorLogs + 1,
               viewRefreshCounts := s.viewRefreshCounts.map (· + 1) } := by
    rw [checkDayChange, if_pos hne1]
    simp [ensureTodaysDailyNoteExists, hnote]
  refine ⟨by rw [hs1], by rw [hs1], by rw [hs1]; exact hnote, ?_, ?_⟩
  · apply checkDayChange_same_day
    rw [hs1]
  · rw [checkDayChange, if_pos (by rw [hs1]; exact hne2)]
    rw [hs1]
    simp only [ensureTodaysDailyNoteExists, hnote]
    split
    · rfl
    · split <;> rfl

/-- Witness for C6 amended. -/
theorem failed_creation_retry_at_next_boundary_witness :
    (checkDayChange "2024-01-02" false ⟨"2024-01-01", false, 0, 0, []⟩).errorLogs
      = 0 + 1 :=
  (failed_creation_retry_at_next_boundary ⟨"2024-01-01", false, 0, 0, []⟩
    "2024-01-02" "2024-01-03" true true (by decide) rfl (by decide)).1

/-- Workspace state relevant to the openFile patch: the most-recently-opened
list, the slot holding the temporary override of the workspace's
recordMostRecentOpenedFile hook (some f means a wrapper excluding file f is
installed; none means the original hook is in place), the captured prior slot
value and the pending one-tick uninstall flag, and the same three fields for
the optional recent-files tracker's shouldAddFile predicate. Files are opaque
ids. -/
structure OFState where
  recentList : List Nat
  recordSlot : Option Nat
  recordSaved : Option Nat
  recordPending : Bool
  rfPresent : Bool
  rfSlot : Option Nat
  rfSaved : Option Nat
  rfPending : Bool
deriving DecidableEq

/-- Modelled from the spec: the host's original recordMostRecentOpenedFile,
which prepends the file to the most-recently-opened list without touching
existing entries. -/
def recordOrig (f : Nat) (list : List Nat) : List Nat :=
  f :: list

/-- A call to the workspace's (possibly wrapped) recordMostRecentOpenedFile:
with the override installed, the excluded file is dropped and every other file
is delegated to the original hook (lines 399-407). -/
def recordCall (s : OFState) (f : Nat) : OFState :=
  match s.recordSlot with
  | some ex => if f = ex then s else { s with recentList := recordOrig f s.recentList }
  | none => { s with recentList := recordOrig f s.recentList }

/-- A query to the recent-files tracker's (possibly wrapped) shouldAddFile
predicate, given the tracker's base predicate (lines 416-426). -/
def shouldAddFileCall (baseShould : Nat → Bool) (s : OFState) (f : Nat) : Bool :=
  match s.rfSlot with
  | some ex => decide (f ≠ ex) && baseShould f
  | none => baseShould f

/-- Patched WorkspaceLeaf.openFile translated from lines 394-432: on a guarded
leaf, install the two temporary overrides (capturing the prior hook and
scheduling their uninstall for the next callback tick), then delegate to the
original openFile, whose host implementation records the opened file through
the current recordMostRecentOpenedFile hook. On any other leaf, just delegate
to the original. -/
def openFilePatched (s : OFState) (l : Leaf) (f : Nat) : OFState :=
  if isDailyNoteLeaf l then
    let s1 := { s with recordSaved := s.recordSlot, recordSlot := some f,
                       recordPending := true }
    let s2 :=
      if s1.rfPresent then
        { s1 with rfSaved := s1.rfSlot, rfSlot := some f, rfPending := true }
      else s1
    recordCall s2 f
  else recordCall s f

/-- The pending callback tick: every uninstaller scheduled with setTimeout
runs, restoring the hook reference captured at install time. -/
def ofTick (s : OFState) : OFState :=
  { s with
    recordSlot := if s.recordPending then s.recordSaved else s.recordSlot,
    recordPending := false,
    rfSlot := if s.rfPending then s.rfSaved else s.rfSlot,
    rfPending := false }

/-- Events that can reach the wrapped hooks during the exclusion window. -/
inductive OFEvent
  | record (f : Nat)
  | tick
deriving DecidableEq

/-- Step the workspace state by one event. -/
def ofStep (s : OFState) : OFEvent → OFState
  | OFEvent.record f => recordCall s f
  | OFEvent.tick => ofTick s

/-- C3: opening file f on a guarded leaf leaves the most-recently-opened list
exactly as it was (f is not added and existing entries are untouched), while
during the exclusion window any other file f2 is still recorded normally by
the original hook and is still admitted per the recent-files tracker's own
base predicate, whereas f itself is excluded from both. -/
theorem openFile_recent_frame (s : OFState) (l : Leaf) (f f2 : Nat)
    (baseShould : Nat → Bool) (hg : isDailyNoteLeaf l = true) (hne : f2 ≠ f)
    (hrf : s.rfPresent = true) :
    let s1 := openFilePatched s l f
    s1.recentList = s.recentList
    ∧ (recordCall s1 f2).recentList = recordOrig f2 s1.recentList
    ∧ (recordCall s1 f).recentList = s1.recentList
    ∧ shouldAddFileCall baseShould s1 f2 = baseShould f2
    ∧ shouldAddFileCall baseShould s1 f = false := by
  intro s1
  have hs1 : s1 = { s with recordSaved := s.recordSlot, recordSlot := some f,
                           recordPending := true, rfSaved := s.rfSlot,
                           rfSlot := some f, rfPending := true } := by
    show openFilePatched s l f = _
    rw [openFilePatched, if_pos hg]
    simp [recordCall, hrf]
  refine ⟨?_, ?_, ?_, ?_, ?_⟩
  · rw [hs1]
  · rw [hs1]
    simp [recordCall, hne]
  · rw [hs1]
    simp [recordCall]
  · rw [hs1]
    simp [shouldAddFileCall, hne]
  · rw [hs1]
    simp [shouldAddFileCall]

/-- Witness for C3. -/
theorem openFile_recent_frame_witness :
    (openFilePatched ⟨[5], none, none, false, true, none, none, false⟩
      ⟨DAILY_NOTE_VIEW_TYPE, true⟩ 9).recentList = [5] :=
  (openFile_recent_frame ⟨[5], none, none, false, true, none, none, false⟩
    ⟨DAILY_NOTE_VIEW_TYPE, true⟩ 9 3 (fun _ => true) (by decide) (by decide)
    rfl).1

/-- Counterexample for C4: the temporary override is not single-shot. Opening
file 7 on a guarded leaf fires the wrapped record hook once (for the excluded
file) during the open itself, yet the override is still installed afterwards:
a second record call for file 7 in the same tick is still swallowed instead of
being recorded by a restored original hook. -/
theorem override_not_single_shot :
    (openFilePatched ⟨[], none, none, false, true, none, none, false⟩
      ⟨DAILY_NOTE_VIEW_TYPE, true⟩ 7).recordSlot = some 7
    ∧ (openFilePatched ⟨[], none, none, false, true, none, none, false⟩
        ⟨DAILY_NOTE_VIEW_TYPE, true⟩ 7).recentList = []
    ∧ (ofStep (openFilePatched ⟨[], none, none, false, true, none, none, false⟩
        ⟨DAILY_NOTE_VIEW_TYPE, true⟩ 7) (OFEvent.record 7)).recordSlot = some 7
    ∧ (ofStep (openFilePatched ⟨[], none, none, false, true, none, none, false⟩
        ⟨DAILY_NOTE_VIEW_TYPE, true⟩ 7) (OFEvent.record 7)).recentList = [] := by
  decide

/-- C4 amended: each temporary override is removed by the uninstaller
scheduled at install time for the next pending callback tick — not by firing —
so it stays installed for however many record calls occur within the window,
and once the tick runs no override remains installed (both hook slots are back
to the references captured at install time, here the original hooks). -/
theorem recordCall_slots (t : OFState) (g : Nat) :
    (recordCall t g).recordSlot = t.recordSlot
    ∧ (recordCall t g).rfSlot = t.rfSlot
    ∧ (recordCall t g).recordSaved = t.recordSaved
    ∧ (recordCall t g).rfSaved = t.rfSaved
    ∧ (recordCall t g).recordPending = t.recordPending
    ∧ (recordCall t g).rfPending = t.rfPending := by
  rw [recordCall]
  cases hslot : t.recordSlot with
  | none => exact ⟨rfl, rfl, rfl, rfl, rfl, rfl⟩
  | some ex =>
    dsimp only
    split
    · first
        | exact ⟨rfl, rfl, rfl, rfl, rfl, rfl⟩
        | exact ⟨hslot, rfl, rfl, rfl, rfl, rfl⟩
    · first
        | exact ⟨rfl, rfl, rfl, rfl, rfl, rfl⟩
        | exact ⟨hslot, rfl, rfl, rfl, rfl, rfl⟩

theorem override_removed_at_tick (s : OFState) (l : Leaf) (f : Nat)
    (evs : List OFEvent) (hg : isDailyNoteLeaf l = true)
    (hclean1 : s.recordSlot = none) (hclean2 : s.rfSlot = none)
    (hrf : s.rfPresent = true) (hticks : OFEvent.tick ∉ evs) :
    (evs.foldl ofStep (openFilePatched s l f)).recordSlot = some f
    ∧ (evs.foldl ofStep (openFilePatched s l f)).rfSlot = some f
    ∧ (ofTick (evs.foldl ofStep (openFilePatched s l f))).recordSlot = none
    ∧ (ofTick (evs.foldl ofStep (openFilePatched s l f))).rfSlot = none
    ∧ (ofTick (evs.foldl ofStep (openFilePatched s l f))).recordPending = false
    ∧ (ofTick (evs.foldl ofStep (openFilePatched s l f))).rfPending = false := by
  have hsame : ∀ (es : List OFEvent) (t : OFState), OFEvent.tick ∉ es →
      (es.foldl ofStep t).recordSlot = t.recordSlot
      ∧ (es.foldl ofStep t).rfSlot = t.rfSlot
      ∧ (es.foldl ofStep t).recordSaved = t.recordSaved
      ∧ (es.foldl ofStep t).rfSaved = t.rfSaved
      ∧ (es.foldl ofStep t).recordPending = t.recordPending
      ∧ (es.foldl ofStep t).rfPending = t.rfPending := by
    intro es
    induction es with
    | nil => intro t _; exact ⟨rfl, rfl, rfl, rfl, rfl, rfl⟩
    | cons e rest ih =>
      intro t hmem
      cases e with
      | record g =>
        have hrest : OFEvent.tick ∉ rest := fun h => hmem (List.mem_cons_of_mem _ h)
        obtain ⟨r1, r2, r3, r4, r5, r6⟩ := recordCall_slots t g
        obtain ⟨i1, i2, i3, i4, i5, i6⟩ := ih (recordCall t g) hrest
        exact ⟨i1.trans r1, i2.trans r2, i3.trans r3, i4.trans r4,
          i5.trans r5, i6.trans r6⟩
      | tick => exact absurd (List.mem_cons_self _ _) hmem
  have hopen : (openFilePatched s l f).recordSlot = some f
      ∧ (openFilePatched s l f).rfSlot = some f
      ∧ (openFilePatched s l f).recordSaved = none
      ∧ (openFilePatched s l f).rfSaved = none
      ∧ (openFilePatched s l f).recordPending = true
      ∧ (openFilePatched s l f).rfPending = true := by
    rw [openFilePatched, if_pos hg]
    simp [recordCall, hclean1, hclean2, hrf]
  obtain ⟨h1, h2, h3, h4, h5, h6⟩ := hsame evs (openFilePatched s l f) hticks
  obtain ⟨o1, o2, o3, o4, o5, o6⟩ := hopen
  refine ⟨h1.trans o1, h2.trans o2, ?_, ?_, rfl, rfl⟩
  · simp [ofTick, h5.trans o5, h3.trans o3]
  · simp [ofTick, h6.trans o6, h4.trans o4]

/-- Witness for C4 amended. -/
theorem override_removed_at_tick_witness :
    ((([OFEvent.record 3] : List OFEvent).foldl ofStep
      (openFilePatched ⟨[], none, none, false, true, none, none, false⟩
        ⟨DAILY_NOTE_VIEW_TYPE, true⟩ 7)).recordSlot = some 7) :=
  (override_removed_at_tick ⟨[], none, none, false, true, none, none, false⟩
    ⟨DAILY_NOTE_VIEW_TYPE, true⟩ 7 [OFEvent.record 3] (by decide) rfl rfl rfl
    (by decide)).1

/-- The workspace's setActiveLeaf method slot, as a syntactic chain of
wrappers over the host original. The plugin's install captures the current
method (bound to the same workspace receiver, hence behaviorally the captured
method itself) and replaces the slot with the wrapper closing over it. -/
inductive SALMethod
  | original
  | patched (captured : SALMethod)
deriving DecidableEq

/-- patchSetActiveLeaf translated from lines 212-236: capture the current
setActiveLeaf, install the wrapper; returns the new slot together with the
captured reference held by the registered uninstaller. -/
def installSetActiveLeafPatch (slot : SALMethod) : SALMethod × SALMethod :=
  (SALMethod.patched slot, slot)

/-- The registered uninstaller (lines 233-235): assign the captured reference
back into the slot. -/
def uninstallSetActiveLeafPatch (captured : SALMethod) (_slot : SALMethod) :
    SALMethod :=
  captured

/-- A DOM event listener registration: event type, opaque handler identity,
and the capture flag. -/
structure DomListener where
  eventType : String
  handlerId : Nat
  capture : Bool
deriving DecidableEq

/-- document.addEventListener: a no-op when an identical registration is
already present, otherwise appended. -/
def addEventListener (doc : List DomListener) (l : DomListener) :
    List DomListener :=
  if doc.contains l then doc else doc ++ [l]

/-- document.removeEventListener: removes the matching registration when
present, otherwise a no-op (never an error). -/
def removeEventListener (doc : List DomListener) (l : DomListener) :
    List DomListener :=
  doc.erase l

/-- C7: for the setActiveLeaf patch, running the registered uninstaller
restores exactly the method reference captured at install time (the pre-patch
slot), and running it a second time changes nothing; for the Escape key
listener, removing the registered listener restores the prior listener list
and removing it a second time is a no-op. Both uninstall paths are total, so
neither run produces an error. -/
theorem patch_uninstall_idempotent (slot : SALMethod) (doc : List DomListener)
    (esc : DomListener) (hnotin : esc ∉ doc) :
    (uninstallSetActiveLeafPatch (installSetActiveLeafPatch slot).2
        (installSetActiveLeafPatch slot).1 = slot)
    ∧ (uninstallSetActiveLeafPatch (installSetActiveLeafPatch slot).2
        (uninstallSetActiveLeafPatch (installSetActiveLeafPatch slot).2
          (installSetActiveLeafPatch slot).1) = slot)
    ∧ (removeEventListener (addEventListener doc esc) esc = doc)
    ∧ (removeEventListener (removeEventListener (addEventListener doc esc) esc)
        esc = doc) := by
  have hrm : removeEventListener (addEventListener doc esc) esc = doc := by
    rw [addEventListener, if_neg (by simpa using hnotin), removeEventListener,
      List.erase_append_right _ hnotin]
    simp
  refine ⟨rfl, rfl, hrm, ?_⟩
  rw [hrm, removeEventListener, List.erase_of_not_mem hnotin]

/-- Witness for C7. -/
theorem patch_uninstall_idempotent_witness :
    removeEventListener
      (addEventListener [] ⟨"keydown", 1, true⟩) ⟨"keydown", 1, true⟩ = [] :=
  (patch_uninstall_idempotent SALMethod.original [] ⟨"keydown", 1, true⟩
    (by decide)).2.2.1

/-- Modelled from the spec: the behavior of a workspace item's own getRoot
method in the host. Plain items inherit the parent-walking implementation;
window containers resolve to themselves; host components in detached or
popped-out layouts can carry an own getRoot resolving to a designated item. -/
inductive RImpl
  | inheritedWalk
  | selfRoot
  | fixedRoot (target : Nat)
deriving DecidableEq

/-- A workspace item in the getRoot object graph: its parent (if any),
whether it is a WorkspaceLeaf (so that its getRoot resolves through the
patched WorkspaceLeaf prototype method), whether it hosts the guarded view
(ignored by the getRoot patch, recorded to state claims about non-guarded
leaves), and its own getRoot behavior. -/
structure RItem where
  parent : Option Nat
  isLeaf : Bool
  guardedView : Bool
  impl : RImpl
deriving DecidableEq

/-- Which method body a getRoot call is executing: the dynamic dispatch on an
item, the patched WorkspaceLeaf.getRoot (lines 379-386), an item's own host
method, or the inherited WorkspaceItem parent walk. -/
inductive RCall
  | dispatch
  | patchedLeaf
  | host
  | walk
deriving DecidableEq

/-- Fueled evaluation of getRoot over the item graph g. RCall.patchedLeaf is
the translation of the patched body: run the pre-patch method (the inherited
walk) to get the candidate top; if top's getRoot is the same method reference
as this leaf's (that is, top is itself a WorkspaceLeaf resolving through the
patched prototype), return top as-is, otherwise return top.getRoot(). Fuel
exhaustion returns none. -/
def getRootFuel (g : Nat → RItem) : Nat → RCall → Nat → Option Nat
  | 0, _, _ => none
  | fuel+1, c, i =>
    match c with
    | RCall.dispatch =>
      if (g i).isLeaf then getRootFuel g fuel RCall.patchedLeaf i
      else getRootFuel g fuel RCall.host i
    | RCall.patchedLeaf =>
      match getRootFuel g fuel RCall.walk i with
      | none => none
      | some top =>
        if (g top).isLeaf then some top
        else getRootFuel g fuel RCall.dispatch top
    | RCall.host =>
      match (g i).impl with
      | RImpl.selfRoot => some i
      | RImpl.fixedRoot t => some t
      | RImpl.inheritedWalk => getRootFuel g fuel RCall.walk i
    | RCall.walk =>
      match (g i).parent with
      | none => some i
      | some p => getRootFuel g fuel RCall.dispatch p

/-- An item whose own host-level resolution immediately returns itself: a
self-rooting container, a parentless plain item, or an own method designating
itself. -/
def RStable (g : Nat → RItem) (x : Nat) : Prop :=
  (g x).impl = RImpl.selfRoot
  ∨ ((g x).impl = RImpl.inheritedWalk ∧ (g x).parent = none)
  ∨ (g x).impl = RImpl.fixedRoot x

/-- An item at which dynamic getRoot dispatch is a fixpoint. -/
def GoodRoot (g : Nat → RItem) (r : Nat) : Prop :=
  ((g r).isLeaf = false ∧ RStable g r)
  ∨ ((g r).isLeaf = true ∧ (g r).parent = none)

/-- An item the unpatched walk can stop at: already stable, or carrying an
own method that designates a stable non-leaf item (the detached-window case
the patch exists for). -/
def PreRoot (g : Nat → RItem) (r : Nat) : Prop :=
  ((g r).isLeaf = false ∧ RStable g r)
  ∨ ((g r).isLeaf = false ∧ ∃ u, (g r).impl = RImpl.fixedRoot u
      ∧ (g u).isLeaf = false ∧ RStable g u)

/-- Modelled from the spec: sanity conditions on the host item graph. Leaves
carry the inherited method (the patch lives on their prototype), parent links
go strictly down a topological index and never point at a leaf, and any own
getRoot override designates a non-leaf item that is stable or one own-method
step away from a stable non-leaf item. -/
def WfHost (g : Nat → RItem) : Prop :=
  (∀ j, (g j).isLeaf = true → (g j).impl = RImpl.inheritedWalk)
  ∧ (∀ j p, (g j).parent = some p → p < j)
  ∧ (∀ j p, (g j).parent = some p → (g p).isLeaf = false)
  ∧ (∀ j t, (g j).impl = RImpl.fixedRoot t →
      (g t).isLeaf = false
      ∧ (RStable g t ∨ ∃ u, (g t).impl = RImpl.fixedRoot u
          ∧ (g u).isLeaf = false ∧ RStable g u))

theorem host_stable (g : Nat → RItem) (r : Nat) (hnl : (g r).isLeaf = false)
    (hs : RStable g r) : ∀ fuel, 2 ≤ fuel →
    getRootFuel g fuel RCall.host r = some r := by
  intro fuel hfuel
  match fuel, hfuel with
  | f+2, _ =>
    rcases hs with h | ⟨h1, h2⟩ | h
    · simp [getRootFuel, h]
    · simp [getRootFuel, h1, h2]
    · simp [getRootFuel, h]

theorem dispatch_goodroot (g : Nat → RItem) (r : Nat) (hg : GoodRoot g r) :
    ∀ fuel, 3 ≤ fuel → getRootFuel g fuel RCall.dispatch r = some r := by
  intro fuel hfuel
  match fuel, hfuel with
  | f+3, _ =>
    rcases hg with ⟨hnl, hs⟩ | ⟨hl, hp⟩
    · show getRootFuel g (f+3) RCall.dispatch r = some r
      rw [getRootFuel]
      simp only [hnl, Bool.false_eq_true, if_false]
      exact host_stable g r hnl hs (f+2) (by omega)
    · rw [getRootFuel]
      simp only [hl, if_true]
      rw [getRootFuel]
      simp [getRootFuel, hp, hl]

theorem dispatch_step (g : Nat → RItem) (f i : Nat) :
    getRootFuel g (f+1) RCall.dispatch i =
      if (g i).isLeaf then getRootFuel g f RCall.patchedLeaf i
      else getRootFuel g f RCall.host i := rfl

theorem patched_step (g : Nat → RItem) (f i : Nat) :
    getRootFuel g (f+1) RCall.patchedLeaf i =
      match getRootFuel g f RCall.walk i with
      | none => none
      | some top =>
        if (g top).isLeaf then some top
        else getRootFuel g f RCall.dispatch top := rfl

theorem host_step (g : Nat → RItem) (f i : Nat) :
    getRootFuel g (f+1) RCall.host i =
      match (g i).impl with
      | RImpl.selfRoot => some i
      | RImpl.fixedRoot t => some t
      | RImpl.inheritedWalk => getRootFuel g f RCall.walk i := rfl

theorem walk_step (g : Nat → RItem) (f i : Nat) :
    getRootFuel g (f+1) RCall.walk i =
      match (g i).parent with
      | none => some i
      | some p => getRootFuel g f RCall.dispatch p := rfl

theorem getRootFuel_mono (g : Nat → RItem) :
    ∀ fuel c i r, getRootFuel g fuel c i = some r →
    ∀ fuel2, fuel ≤ fuel2 → getRootFuel g fuel2 c i = some r := by
  intro fuel
  induction fuel with
  | zero => intro c i r h; simp [getRootFuel] at h
  | succ f ih =>
    intro c i r h fuel2 hle
    obtain ⟨f2, rfl⟩ : ∃ f2, fuel2 = f2 + 1 := ⟨fuel2 - 1, by omega⟩
    have hle2 : f ≤ f2 := by omega
    cases c with
    | dispatch =>
      rw [dispatch_step] at h ⊢
      cases hl : (g i).isLeaf <;> simp only [hl] at h ⊢ <;>
        simp only [Bool.false_eq_true, if_false, if_true] at h ⊢ <;>
        exact ih _ _ _ h f2 hle2
    | patchedLeaf =>
      rw [patched_step] at h ⊢
      cases hw : getRootFuel g f RCall.walk i with
      | none => rw [hw] at h; exact absurd h (by simp)
      | some top =>
        rw [hw] at h
        rw [ih RCall.walk i top hw f2 hle2]
        dsimp only at h ⊢
        cases hl : (g top).isLeaf <;> simp only [hl] at h ⊢ <;>
          simp only [Bool.false_eq_true, if_false, if_true] at h ⊢
        · exact ih _ _ _ h f2 hle2
        · exact h
    | host =>
      rw [host_step] at h ⊢
      cases him : (g i).impl with
      | inheritedWalk =>
        rw [him] at h
        exact ih RCall.walk i r h f2 hle2
      | selfRoot =>
        rw [him] at h
        exact h
      | fixedRoot t =>
        rw [him] at h
        exact h
    | walk =>
      rw [walk_step] at h ⊢
      cases hp : (g i).parent with
      | none =>
        rw [hp] at h
        exact h
      | some p =>
        rw [hp] at h
        exact ih RCall.dispatch p r h f2 hle2

theorem host_walk_preroot (g : Nat → RItem) (hwf : WfHost g) :
    ∀ i, (g i).isLeaf = false → ∀ fuel, 3 * i + 3 ≤ fuel →
    ∃ r, getRootFuel g fuel RCall.host i = some r ∧ PreRoot g r := by
  intro i
  induction i using Nat.strong_induction_on with
  | _ i ih =>
    intro hnl fuel hfuel
    obtain ⟨f, rfl⟩ : ∃ f, fuel = f + 1 + 1 + 1 := ⟨fuel - 3, by omega⟩
    cases him : (g i).impl with
    | selfRoot =>
      exact ⟨i, by rw [host_step, him], Or.inl ⟨hnl, Or.inl him⟩⟩
    | fixedRoot t =>
      obtain ⟨ht1, ht2⟩ := hwf.2.2.2 i t him
      refine ⟨t, by rw [host_step, him], ?_⟩
      rcases ht2 with hs | ⟨u, hu1, hu2, hu3⟩
      · exact Or.inl ⟨ht1, hs⟩
      · exact Or.inr ⟨ht1, u, hu1, hu2, hu3⟩
    | inheritedWalk =>
      cases hp : (g i).parent with
      | none =>
        refine ⟨i, ?_, Or.inl ⟨hnl, Or.inr (Or.inl ⟨him, hp⟩)⟩⟩
        rw [host_step, him, walk_step, hp]
      | some p =>
        have hlt := hwf.2.1 i p hp
        have hpn : (g p).isLeaf = false := hwf.2.2.1 i p hp
        obtain ⟨r, hr, hpre⟩ := ih p hlt hpn f (by omega)
        refine ⟨r, ?_, hpre⟩
        rw [host_step, him, walk_step, hp]
        show getRootFuel g (f + 1) RCall.dispatch p = some r
        rw [dispatch_step]
        simp only [hpn, Bool.false_eq_true, if_false]
        exact hr

theorem walk_result (g : Nat → RItem) (hwf : WfHost g) :
    ∀ i fuel, 3 * i + 2 ≤ fuel →
    ∃ r, getRootFuel g fuel RCall.walk i = some r
      ∧ (PreRoot g r ∨ (r = i ∧ (g i).parent = none)) := by
  intro i fuel hfuel
  obtain ⟨f, rfl⟩ : ∃ f, fuel = f + 1 + 1 := ⟨fuel - 2, by omega⟩
  cases hp : (g i).parent with
  | none =>
    refine ⟨i, ?_, Or.inr ⟨rfl, rfl⟩⟩
    rw [walk_step, hp]
  | some p =>
    have hlt := hwf.2.1 i p hp
    have hpn : (g p).isLeaf = false := hwf.2.2.1 i p hp
    obtain ⟨r, hr, hpre⟩ := host_walk_preroot g hwf p hpn f (by omega)
    refine ⟨r, ?_, Or.inl hpre⟩
    rw [walk_step, hp]
    show getRootFuel g (f + 1) RCall.dispatch p = some r
    rw [dispatch_step]
    simp only [hpn, Bool.false_eq_true, if_false]
    exact hr

theorem patched_leaf_result (g : Nat → RItem) (hwf : WfHost g) (i f1 : Nat)
    (hleaf : (g i).isLeaf = true) (hf : 3 * i + 3 ≤ f1) :
    ∃ r top0, getRootFuel g f1 RCall.walk i = some top0
      ∧ getRootFuel g (f1 + 1 + 1) RCall.dispatch i = some r
      ∧ GoodRoot g r
      ∧ getRootFuel g (f1 + 1 + 1) RCall.dispatch top0 = some r := by
  obtain ⟨top0, hw, hcase⟩ := walk_result g hwf i f1 (by omega)
  have hdisp : getRootFuel g (f1 + 1 + 1) RCall.dispatch i
      = getRootFuel g (f1 + 1) RCall.patchedLeaf i := by
    rw [dispatch_step, if_pos hleaf]
  have hpat : getRootFuel g (f1 + 1) RCall.patchedLeaf i
      = (if (g top0).isLeaf then some top0
         else getRootFuel g f1 RCall.dispatch top0) := by
    rw [patched_step, hw]
  rcases hcase with hpre | ⟨heq, hpn⟩
  · rcases hpre with ⟨hnl, hs⟩ | ⟨hnl, u, hu1, hu2, hu3⟩
    · have hgr : GoodRoot g top0 := Or.inl ⟨hnl, hs⟩
      have hd0 : getRootFuel g f1 RCall.dispatch top0 = some top0 :=
        dispatch_goodroot g top0 hgr f1 (by omega)
      refine ⟨top0, top0, hw, ?_, hgr, ?_⟩
      · rw [hdisp, hpat, if_neg (by simp [hnl]), hd0]
      · exact dispatch_goodroot g top0 hgr (f1 + 1 + 1) (by omega)
    · have hgu : GoodRoot g u := Or.inl ⟨hu2, hu3⟩
      have hd0 : ∀ fz, getRootFuel g (fz + 1 + 1) RCall.dispatch top0 = some u := by
        intro fz
        rw [dispatch_step, if_neg (by simp [hnl]), host_step, hu1]
      refine ⟨u, top0, hw, ?_, hgu, hd0 f1⟩
      rw [hdisp, hpat, if_neg (by simp [hnl])]
      obtain ⟨fz, rfl⟩ : ∃ fz, f1 = fz + 1 + 1 := ⟨f1 - 2, by omega⟩
      exact hd0 fz
  · subst heq
    refine ⟨top0, top0, hw, ?_, Or.inr ⟨hleaf, hpn⟩, ?_⟩
    · rw [hdisp, hpat, if_pos hleaf]
    · rw [hdisp, hpat, if_pos hleaf]

/-- C8: under the modelled host sanity conditions, the patched root
resolution on any leaf terminates with some root r, re-resolving r returns r
itself (idempotence), and r is exactly the one-step-further resolution of the
candidate computed by the original parent walk: the candidate is returned
as-is precisely when its own resolution points back to itself, and otherwise
resolution proceeds exactly one level further. -/
theorem getRoot_idempotent (g : Nat → RItem) (i fuel : Nat) (hwf : WfHost g)
    (hleaf : (g i).isLeaf = true) (hfuel : 3 * i + 6 ≤ fuel) :
    (getRootFuel g fuel RCall.dispatch i).isSome = true
    ∧ ∀ r, getRootFuel g fuel RCall.dispatch i = some r →
        getRootFuel g fuel RCall.dispatch r = some r
        ∧ ∀ top, getRootFuel g fuel RCall.walk i = some top →
            getRootFuel g fuel RCall.dispatch top = some r := by
  obtain ⟨f1, rfl⟩ : ∃ f1, fuel = f1 + 1 + 1 := ⟨fuel - 2, by omega⟩
  obtain ⟨r0, top0, hw, hd, hgr, hdt⟩ :=
    patched_leaf_result g hwf i f1 hleaf (by omega)
  refine ⟨by rw [hd]; rfl, ?_⟩
  intro r hr
  obtain rfl : r0 = r := Option.some_injective _ (hd.symm.trans hr)
  refine ⟨dispatch_goodroot g r0 hgr (f1 + 1 + 1) (by omega), ?_⟩
  intro top htop
  have hw2 : getRootFuel g (f1 + 1 + 1) RCall.walk i = some top0 :=
    getRootFuel_mono g f1 RCall.walk i top0 hw (f1 + 1 + 1) (by omega)
  obtain rfl : top0 = top := Option.some_injective _ (hw2.symm.trans htop)
  exact hdt

/-- The example graph for the C8 witness: leaf 1 sits under the self-rooting
container 0. -/
def gW : Nat → RItem := fun i =>
  match i with
  | 0 => ⟨none, false, false, RImpl.selfRoot⟩
  | 1 => ⟨some 0, true, true, RImpl.inheritedWalk⟩
  | _+2 => ⟨none, false, false, RImpl.selfRoot⟩

theorem gW_wf : WfHost gW := by
  refine ⟨?_, ?_, ?_, ?_⟩
  · intro j hj
    match j, hj with
    | 0, hj => exact Bool.noConfusion hj
    | 1, _ => rfl
    | n+2, hj => exact Bool.noConfusion hj
  · intro j p hp
    match j, hp with
    | 0, hp => exact Option.noConfusion hp
    | 1, hp =>
      have h2 : (some 0 : Option Nat) = some p := hp
      have hp0 : p = 0 := (Option.some_injective _ h2).symm
      omega
    | n+2, hp => exact Option.noConfusion hp
  · intro j p hp
    match j, hp with
    | 0, hp => exact Option.noConfusion hp
    | 1, hp =>
      have h2 : (some 0 : Option Nat) = some p := hp
      have hp0 : p = 0 := (Option.some_injective _ h2).symm
      subst hp0
      rfl
    | n+2, hp => exact Option.noConfusion hp
  · intro j t ht
    match j, ht with
    | 0, ht => exact RImpl.noConfusion ht
    | 1, ht => exact RImpl.noConfusion ht
    | n+2, ht => exact RImpl.noConfusion ht

/-- Witness for C8: on the concrete graph, the leaf resolves to container 0
and resolving 0 again returns 0. -/
theorem getRoot_idempotent_witness :
    getRootFuel gW 9 RCall.dispatch 0 = some 0 :=
  ((getRoot_idempotent gW 1 9 gW_wf rfl (by omega)).2 0 (by decide)).1

/-- The example graph for the C9 counterexample: item 2 is a leaf that does
not host the guarded view, its parent 1 is a host component whose own getRoot
designates item 3, and item 3's own getRoot resolves one step further to the
true root 4. -/
def gBad : Nat → RItem := fun i =>
  match i with
  | 0 => ⟨none, false, false, RImpl.inheritedWalk⟩
  | 1 => ⟨none, false, false, RImpl.fixedRoot 3⟩
  | 2 => ⟨some 1, true, false, RImpl.inheritedWalk⟩
  | 3 => ⟨none, false, false, RImpl.fixedRoot 4⟩
  | _+4 => ⟨none, false, false, RImpl.selfRoot⟩

/-- Counterexample for C9: on a leaf that does not host the guarded view, the
patched root resolution (which never tests the guarded-leaf predicate)
returns item 4, while the original host implementation (the inherited parent
walk) returns item 3 — the patched operation is not observationally
equivalent to the original on non-guarded leaves. -/
theorem getRoot_patch_not_transparent :
    (gBad 2).guardedView = false ∧ (gBad 2).isLeaf = true
    ∧ getRootFuel gBad 10 RCall.walk 2 = some 3
    ∧ getRootFuel gBad 10 RCall.dispatch 2 = some 4 := by
  decide

/-- C9 amended: for every leaf that does not host the guarded view, the
patched pin toggle and the patched file open are observationally equivalent
to the original host implementations (same result, no extra state change);
the patched root resolution, however, applies to all leaves unconditionally
and can return a further-resolved root that differs from the original result
(see the counterexample). -/
theorem nonguarded_pin_open_transparent (l : Leaf) (p : Bool) (s : OFState)
    (f : Nat) (h : isDailyNoteLeaf l = false) :
    setPinnedPatched l p = setPinnedOrig l p
    ∧ openFilePatched s l f = recordCall s f := by
  constructor
  · cases p
    · rw [setPinnedPatched]
      have : isDailyNoteLeaf (setPinnedOrig l false) = false := by
        simpa [isDailyNoteLeaf, setPinnedOrig] using h
      simp [this]
    · exact setPinnedPatched_true l
  · simp [openFilePatched, h]

/-- Witness for C9 amended. -/
theorem nonguarded_pin_open_transparent_witness :
    setPinnedPatched ⟨"markdown", true⟩ false = setPinnedOrig ⟨"markdown", true⟩ false :=
  (nonguarded_pin_open_transparent ⟨"markdown", true⟩ false
    ⟨[], none, none, false, true, none, none, false⟩ 4 (by decide)).1

end DNE
